import Mathlib

/-!
Verification of the billing/fines subsystem of `evergreen-universe-rs`
(`src/evergreen/src/common/billing.rs` and `src/evergreen/src/date.rs`).

Shallow embedding conventions:
* Monetary amounts (`f64` in the source) are modelled as exact rationals (`Rat`).
  The spec itself (section 9) describes the float representation as a latent
  precision risk and treats the amounts as monetary values.
* Timestamps (`DateTime<Local>` / `DateTime<FixedOffset>`) are modelled as
  integer epoch seconds; `timestamp()` is the identity.  The weekday of an
  epoch value is computed for a zero-offset locale (1970-01-01 was a Thursday,
  `num_days_from_sunday` maps Thursday to 4).
* The persistence and settings collaborators (spec section 6) are modelled as
  total oracles supplied in environment structures; an operation's claims are
  proved for every oracle.
* Code from this repository that is not under `src/` (`util::fpdiff`,
  `util::json_int` used for the payment sort) is modelled from the spec; the
  definitions concerned carry a doc comment saying so.
-/

/-! ## Interval parser (`date.rs`, `interval_to_seconds`) -/

/-- Whitespace characters recognised by the regex class `\s`
(ASCII subset, which covers the interval strings in play). -/
def isWsChar (c : Char) : Bool :=
  c = ' ' || c = '\t' || c = '\n' || c = '\r' || c = '\x0b' || c = '\x0c'

/-- Word characters recognised by the regex class `\w`
(ASCII subset: alphanumeric or underscore). -/
def isWordChar (c : Char) : Bool :=
  c.isAlphanum || c = '_'

/-- Does the character list start with the given pattern? -/
def seqStartsWith : List Char → List Char → Bool
  | _, [] => true
  | [], _ :: _ => false
  | c :: cs, p :: ps => c == p && seqStartsWith cs ps

/-- Replace every non-overlapping occurrence of `pat` (left to right) by
`repl`, as Rust's `String::replace` does for a non-empty pattern.  The fuel
is the input length; every step consumes at least one input character, so
fuel equal to the length never runs out. -/
def replaceAllF (pat repl : List Char) : Nat → List Char → List Char
  | 0, l => l
  | _ + 1, [] => []
  | n + 1, c :: cs =>
    if seqStartsWith (c :: cs) pat ∧ pat ≠ [] then
      repl ++ replaceAllF pat repl n (cs.drop (pat.length - 1))
    else
      c :: replaceAllF pat repl n cs

/-- Replace every non-overlapping occurrence of `pat` by `repl`. -/
def replaceAll (pat repl : List Char) (l : List Char) : List Char :=
  replaceAllF pat repl l.length l

/-- Drop leading whitespace (the regex `\s*`). -/
def dropWs : List Char → List Char
  | [] => []
  | c :: cs => if isWsChar c then dropWs cs else c :: cs

/-- Split off the maximal leading digit run (the greedy regex `\d+`). -/
def takeDigits : List Char → List Char × List Char
  | [] => ([], [])
  | c :: cs =>
    if c.isDigit then
      let (d, r) := takeDigits cs
      (c :: d, r)
    else ([], c :: cs)

/-- Split off the maximal leading word-character run (the greedy regex `\w+`). -/
def takeWord : List Char → List Char × List Char
  | [] => ([], [])
  | c :: cs =>
    if isWordChar c then
      let (w, r) := takeWord cs
      (c :: w, r)
    else ([], c :: cs)

/-- Match the regex `(\d{2,}):(\d{2}):(\d{2})` anchored at the head of the
list, returning the three capture groups and the remainder. -/
def hmsMatchAt (l : List Char) : Option (List Char × List Char × List Char × List Char) :=
  let (d1, r1) := takeDigits l
  if d1.length ≥ 2 then
    match r1 with
    | ':' :: a :: b :: ':' :: c :: d :: rest =>
      if a.isDigit && b.isDigit && c.isDigit && d.isDigit then
        some (d1, [a, b], [c, d], rest)
      else none
    | _ => none
  else none

/-- The `hms_reg.replace` step: rewrite the leftmost `HH:MM:SS` occurrence into
`"{} h {} min {} s"` (Rust's `Regex::replace` replaces only the first match). -/
def hmsReplaceFirst : List Char → List Char
  | [] => []
  | c :: cs =>
    match hmsMatchAt (c :: cs) with
    | some (h, m, s, rest) =>
      h ++ (" h ".toList) ++ m ++ (" min ".toList) ++ s ++ (" s".toList) ++ rest
    | none => c :: hmsReplaceFirst cs

/-- Match the regex `\s*([\+-]?)\s*(\d+)\s*(\w+)\s*` anchored at this
position, with the backtracking behaviour of a leftmost-first engine:
if the greedy `\d+` leaves no word character for `\w+`, the last digit is
given back and becomes the unit token.  Returns (negated?, digits, word,
remainder after the match). -/
def partMatchAt (l : List Char) : Option (Bool × List Char × List Char × List Char) :=
  let l1 := dropWs l
  let signRest : Bool × List Char :=
    match l1 with
    | '+' :: r => (false, r)
    | '-' :: r => (true, r)
    | r => (false, r)
  let l3 := dropWs signRest.2
  let (ds, r) := takeDigits l3
  if ds = [] then none
  else
    let r4 := dropWs r
    let (w, r5) := takeWord r4
    if w ≠ [] then some (signRest.1, ds, w, dropWs r5)
    else if ds.length ≥ 2 then
      some (signRest.1, ds.dropLast, ds.drop (ds.length - 1), dropWs r)
    else none

/-- The `captures_iter` scan: scan for successive non-overlapping matches of the part
regex, advancing one character on a failed position.  The fuel is the input
length, which bounds the number of steps since every step consumes at least
one character. -/
def partsScan : Nat → List Char → List (Bool × List Char × List Char)
  | 0, _ => []
  | _ + 1, [] => []
  | n + 1, c :: cs =>
    match partMatchAt (c :: cs) with
    | some (neg, ds, w, rest) => (neg, ds, w) :: partsScan n rest
    | none => partsScan n cs

/-- Numeric value of a digit string. -/
def digitsToNat (ds : List Char) : Nat :=
  ds.foldl (fun acc c => acc * 10 + (c.toNat - '0'.toNat)) 0

/-- The unit multiplier table of `interval_to_seconds`: seconds contributed by
`count` of the unit whose token is `w` (unrecognised units contribute 0). -/
def unitSeconds (count : Int) (w : List Char) : Int :=
  if seqStartsWith w ['s'] then count
  else if seqStartsWith w ['m', 'i', 'n'] then count * 60
  else if seqStartsWith w ['h'] then count * 60 * 60
  else if seqStartsWith w ['d'] then count * 60 * 60 * 24
  else if seqStartsWith w ['w'] then count * 60 * 60 * 24 * 7
  else if seqStartsWith w ['m', 'o', 'n'] then (count * 60 * 60 * 24 * 365) / 12
  else if seqStartsWith w ['y'] then count * 60 * 60 * 24 * 365
  else 0

/-- Model of `date::interval_to_seconds`.  The source returns `Result<i64, String>` but
has no error path (an unparsable numeric token is skipped with a warning, as
is a digit string exceeding `i64::MAX`), so the model returns the integer
directly. -/
def interval_to_seconds (s : String) : Int :=
  let l0 := s.toList.map Char.toLower
  let l1 := replaceAll ("and".toList) (",".toList) l0
  let l2 := replaceAll (",".toList) (" ".toList) l1
  let l3 := hmsReplaceFirst l2
  let parts := partsScan l3.length l3
  parts.foldl
    (fun acc p =>
      let n := digitsToNat p.2.1
      if n ≤ 9223372036854775807 then
        let change := unitSeconds (Int.ofNat n) p.2.2
        if p.1 then acc - change else acc + change
      else acc)
    0

/-- C9: the two documented examples of `interval_to_seconds`. -/
theorem interval_to_seconds_examples :
    interval_to_seconds "02:20:05" = 8405 ∧
    interval_to_seconds "1 min 2 seconds" = 62 := by
  constructor <;> rfl

/-! ## Payment allocator (`billing.rs`, `bill_payment_map_for_xact`) -/

/-- A non-voided `money.billing` row as used by the allocator (the `amount`
field is the one the allocator mutates in place). -/
structure Billing where
  id : Int
  amount : Rat
deriving Repr, DecidableEq

/-- A `money.account_adjustment` row fleshed onto an adjustment-type payment:
it targets exactly one billing. -/
structure AcctAdjustment where
  id : Int
  billing : Int
  amount : Rat
deriving Repr, DecidableEq

/-- A non-voided `money.payment` row; adjustment-type payments carry their
fleshed account adjustment. -/
structure Payment where
  id : Int
  amount : Rat
  paymentType : String
  accountAdjustment : Option AcctAdjustment
deriving Repr, DecidableEq

/-- The allocator's ephemeral per-billing working record. -/
structure BillPaymentMap where
  bill : Billing
  adjustments : List AcctAdjustment
  payments : List Payment
  bill_amount : Rat
  adjustment_amount : Rat
deriving Repr, DecidableEq

/-- Modelled from the spec: `util::fpdiff` is not under `src/`; the spec
(sections 8 and 9) treats the amounts as monetary values and recommends
exact minor-unit arithmetic, so the difference is modelled as exact
rational subtraction. -/
def fpdiff (a b : Rat) : Rat := a - b

/-- Modelled from the spec: the descending payment sort uses `util::json_int`,
which is not under `src/`; spec section 4.3 step 2 says the payments are
"sorted by amount descending — largest first", modelled as a stable
insertion sort on the amount. -/
def insertPaymentDesc (p : Payment) : List Payment → List Payment
  | [] => [p]
  | q :: qs => if q.amount < p.amount then p :: q :: qs else q :: insertPaymentDesc p qs

/-- Stable descending-by-amount sort of the payment list. -/
def sortPaymentsDesc : List Payment → List Payment
  | [] => []
  | p :: ps => insertPaymentDesc p (sortPaymentsDesc ps)

/-- The adjustment-pass candidate filter (billing.rs lines 386-394): keep the
fleshed adjustments of adjustment-type payments whose id is contained in
`used` (the source tests `used_adjustments.contains(..)`, with no negation)
and whose target billing is this bill. -/
def adjCandidates (used : List Int) (billId : Int) (ps : List Payment) : List AcctAdjustment :=
  ps.filterMap fun p =>
    match p.accountAdjustment with
    | some a =>
      if p.paymentType = "account_adjustment" ∧ a.id ∈ used ∧ a.billing = billId then
        some a
      else none
    | none => none

/-- Write a new amount into the fleshed adjustment with the given id
(the source mutates the shared payment object through an `&mut`). -/
def setAdjAmount (ps : List Payment) (adjId : Int) (amt : Rat) : List Payment :=
  ps.map fun p =>
    match p.accountAdjustment with
    | some a =>
      if a.id = adjId then { p with accountAdjustment := some { a with amount := amt } } else p
    | none => p

/-- Apply one account adjustment to a map (billing.rs lines 400-424): consume
it fully when it fits in the bill's remaining amount, otherwise split it,
recording only the remaining bill amount and reducing the adjustment's own
amount to the unconsumed remainder. -/
def applyAdjustment (m : BillPaymentMap) (ps : List Payment) (used : List Int)
    (a : AcctAdjustment) : BillPaymentMap × List Payment × List Int :=
  let adjustAmount := a.amount
  let newAmount := fpdiff m.bill.amount adjustAmount
  if 0 ≤ newAmount then
    ({ m with
        bill := { m.bill with amount := newAmount }
        adjustments := m.adjustments ++ [a]
        adjustment_amount := m.adjustment_amount + adjustAmount },
      ps, a.id :: used)
  else
    let consumed : AcctAdjustment := { a with amount := m.bill.amount }
    ({ m with
        bill := { m.bill with amount := 0 }
        adjustments := m.adjustments ++ [consumed]
        adjustment_amount := m.adjustment_amount + m.bill.amount },
      setAdjAmount ps a.id (-newAmount), used)

/-- Drain the candidate adjustments of one bill, stopping once the bill's
amount reaches exactly 0 (the `break` at billing.rs line 427). -/
def adjLoop (m : BillPaymentMap) (ps : List Payment) (used : List Int) :
    List AcctAdjustment → BillPaymentMap × List Payment × List Int
  | [] => (m, ps, used)
  | a :: rest =>
    let r := applyAdjustment m ps used a
    if r.1.bill.amount = 0 then r else adjLoop r.1 r.2.1 r.2.2 rest

/-- The adjustment pass (billing.rs lines 379-430): for each map in billing
order, collect the candidate adjustments and drain them. -/
def adjustmentPass : List BillPaymentMap → List Payment → List Int →
    List BillPaymentMap × List Payment × List Int
  | [], ps, used => ([], ps, used)
  | m :: ms, ps, used =>
    let cands := adjCandidates used m.bill.id ps
    if cands.isEmpty then
      let r := adjustmentPass ms ps used
      (m :: r.1, r.2.1, r.2.2)
    else
      let r := adjLoop m ps used cands
      let r2 := adjustmentPass ms r.2.1 r.2.2
      (r.1 :: r2.1, r2.2.1, r2.2.2)

/-- One payment of the exact-match pass (billing.rs lines 435-451): zero the
first map whose current bill amount equals the payment amount and record the
payment on it. -/
def exactApply (p : Payment) (used : List Int) :
    List BillPaymentMap → List BillPaymentMap × Bool
  | [] => ([], false)
  | m :: ms =>
    if m.bill.amount = p.amount ∧ p.id ∉ used then
      ({ m with bill := { m.bill with amount := 0 }, payments := m.payments ++ [p] } :: ms,
        true)
    else
      let r := exactApply p used ms
      (m :: r.1, r.2)

/-- The exact-match pass over the sorted payments. -/
def exactPass : List Payment → List BillPaymentMap → List Int →
    List BillPaymentMap × List Int
  | [], maps, used => (maps, used)
  | p :: ps, maps, used =>
    let r := exactApply p used maps
    exactPass ps r.1 (if r.2 then p.id :: used else used)

/-- The body of the residual pass's innermost `loop` (billing.rs lines
474-490).  The source loop contains no `break`, `continue` or `return`, so
no iteration count ever produces a result; the fuel argument makes the
divergence observable as `none`. -/
def residualInner : Nat → BillPaymentMap → Payment → List Int →
    Option (BillPaymentMap × Payment × List Int)
  | 0, _, _, _ => none
  | n + 1, m, pay, used =>
    let billAmount := m.bill.amount
    if 0 < billAmount then
      let newAmount := fpdiff billAmount pay.amount
      if newAmount < 0 then
        residualInner n
          { m with
              bill := { m.bill with amount := 0 }
              payments := m.payments ++ [{ pay with amount := billAmount }] }
          { pay with amount := -newAmount } used
      else
        residualInner n
          { m with
              bill := { m.bill with amount := newAmount }
              payments := m.payments ++ [pay] }
          pay (pay.id :: used)
    else
      residualInner n m pay used

/-- The residual pass's walk over the still-unused payments for one bill
(billing.rs lines 470-491). -/
def residualPayLoop (fuel : Nat) : List Payment → BillPaymentMap → List Int →
    Option (BillPaymentMap × List Payment × List Int)
  | [], m, used => some (m, [], used)
  | p :: ps, m, used =>
    if p.id ∈ used then
      match residualPayLoop fuel ps m used with
      | none => none
      | some r => some (r.1, p :: r.2.1, r.2.2)
    else
      match residualInner fuel m p used with
      | none => none
      | some (m', p', used') =>
        match residualPayLoop fuel ps m' used' with
        | none => none
        | some r => some (r.1, p' :: r.2.1, r.2.2)

/-- The residual pass (billing.rs lines 463-492): for each map still carrying
a positive amount, walk the unused payments. -/
def residualPass (fuel : Nat) : List BillPaymentMap → List Payment → List Int →
    Option (List BillPaymentMap × List Payment × List Int)
  | [], ps, used => some ([], ps, used)
  | m :: ms, ps, used =>
    if 0 < m.bill.amount then
      match residualPayLoop fuel ps m used with
      | none => none
      | some (m', ps', used') =>
        match residualPass fuel ms ps' used' with
        | none => none
        | some r => some (m' :: r.1, r.2.1, r.2.2)
    else
      match residualPass fuel ms ps used with
      | none => none
      | some r => some (m :: r.1, r.2.1, r.2.2)

/-- Seed one `BillPaymentMap` per non-voided bill (billing.rs lines 340-352). -/
def seedMaps (bills : List Billing) : List BillPaymentMap :=
  bills.map fun b =>
    { bill := b, adjustments := [], payments := [], bill_amount := b.amount
      adjustment_amount := 0 }

/-- Model of `bill_payment_map_for_xact`: `bills` is the search result for the
transaction's non-voided bills ordered by billing timestamp ascending, and
`payments` the search result for its non-voided payments (adjustment-type
payments fleshed).  The fuel bounds the residual pass's inner loop; `none`
means that loop ran forever. -/
def bill_payment_map_for_xact (fuel : Nat) (bills : List Billing)
    (payments : List Payment) : Option (List BillPaymentMap) :=
  if bills.isEmpty then some [] else
  let maps := seedMaps bills
  if payments.isEmpty then some maps else
  let sorted := sortPaymentsDesc payments
  let r1 := adjustmentPass maps sorted []
  let r2 := exactPass r1.2.1 r1.1 []
  let remaining := r1.2.1.filter fun p => p.id ∉ r2.2
  match residualPass fuel r2.1 remaining [] with
  | none => none
  | some r => some r.1

/-! ## Conservation law for the allocator (C1) -/

/-- Sum of a list of rationals. -/
def ratSum (l : List Rat) : Rat := l.foldr (fun a b => a + b) 0

/-- Total payment amount recorded on a map. -/
def paySum (ps : List Payment) : Rat := ratSum (ps.map Payment.amount)

/-- Total adjustment amount recorded on a map. -/
def adjSum (l : List AcctAdjustment) : Rat := ratSum (l.map AcctAdjustment.amount)

/-- Everything consumed on one map: recorded payments plus recorded
adjustments. -/
def mapConsumed (m : BillPaymentMap) : Rat := paySum m.payments + adjSum m.adjustments

/-- Per-map conservation invariant: the remaining bill amount plus everything
consumed equals the original bill amount. -/
def MapInv (m : BillPaymentMap) : Prop := m.bill.amount + mapConsumed m = m.bill_amount

theorem ratSum_append (l : List Rat) (a : Rat) : ratSum (l ++ [a]) = ratSum l + a := by
  induction l with
  | nil => simp [ratSum]
  | cons x xs ih => simp [ratSum] at ih ⊢; rw [ih]; ring

theorem adjCandidates_nil (billId : Int) (ps : List Payment) :
    adjCandidates [] billId ps = [] := by
  rw [adjCandidates, List.filterMap_eq_nil_iff]
  intro p _
  cases p.accountAdjustment <;> simp

theorem adjustmentPass_nil_used (maps : List BillPaymentMap) :
    ∀ ps : List Payment, adjustmentPass maps ps [] = (maps, ps, []) := by
  induction maps with
  | nil => intro ps; rfl
  | cons m ms ih =>
    intro ps
    simp [adjustmentPass, adjCandidates_nil, ih]

theorem exactApply_bill_amounts (p : Payment) (used : List Int)
    (maps : List BillPaymentMap) :
    (exactApply p used maps).1.map BillPaymentMap.bill_amount
      = maps.map BillPaymentMap.bill_amount := by
  induction maps with
  | nil => rfl
  | cons m ms ih =>
    by_cases h : m.bill.amount = p.amount ∧ p.id ∉ used
    · simp [exactApply, h]
    · simp [exactApply, h, ih]

theorem exactApply_inv (p : Payment) (used : List Int) :
    ∀ maps : List BillPaymentMap, (∀ m ∈ maps, MapInv m) →
    ∀ m' ∈ (exactApply p used maps).1, MapInv m' := by
  intro maps
  induction maps with
  | nil => intro _ m' hm'; simp [exactApply] at hm'
  | cons m ms ih =>
    intro hinv m' hm'
    by_cases h : m.bill.amount = p.amount ∧ p.id ∉ used
    · simp [exactApply, h] at hm'
      rcases hm' with hm' | hm'
      · subst hm'
        have h0 : m.bill.amount + mapConsumed m = m.bill_amount :=
          hinv m (List.mem_cons_self _ _)
        simp [MapInv, mapConsumed, paySum, adjSum, ratSum_append] at h0 ⊢
        rw [← h.1, ← h0]; ring
      · exact hinv m' (List.mem_cons_of_mem _ hm')
    · simp [exactApply, h] at hm'
      rcases hm' with hm' | hm'
      · subst hm'; exact hinv _ (List.mem_cons_self _ _)
      · exact ih (fun x hx => hinv x (List.mem_cons_of_mem _ hx)) m' hm'

theorem exactPass_bill_amounts (ps : List Payment) :
    ∀ (maps : List BillPaymentMap) (used : List Int),
    (exactPass ps maps used).1.map BillPaymentMap.bill_amount
      = maps.map BillPaymentMap.bill_amount := by
  induction ps with
  | nil => intro maps used; rfl
  | cons p ps ih =>
    intro maps used
    simp [exactPass, ih, exactApply_bill_amounts]

theorem exactPass_inv (ps : List Payment) :
    ∀ (maps : List BillPaymentMap) (used : List Int),
    (∀ m ∈ maps, MapInv m) → ∀ m' ∈ (exactPass ps maps used).1, MapInv m' := by
  induction ps with
  | nil => intro maps used hinv; exact hinv
  | cons p ps ih =>
    intro maps used hinv
    exact ih _ _ (exactApply_inv p used maps hinv)

theorem residualInner_eq_none (n : Nat) :
    ∀ (m : BillPaymentMap) (p : Payment) (u : List Int),
    residualInner n m p u = none := by
  induction n with
  | zero => intro m p u; rfl
  | succ n ih =>
    intro m p u
    simp only [residualInner]
    split
    · split <;> exact ih ..
    · exact ih ..

theorem residualPayLoop_some (fuel : Nat) (ps : List Payment) :
    ∀ (m : BillPaymentMap) (used : List Int) r,
    residualPayLoop fuel ps m used = some r → r = (m, ps, used) := by
  induction ps with
  | nil => intro m used r h; simpa [residualPayLoop] using h.symm
  | cons p ps ih =>
    intro m used r h
    by_cases hu : p.id ∈ used
    · rw [residualPayLoop, if_pos hu] at h
      cases hpl : residualPayLoop fuel ps m used with
      | none => rw [hpl] at h; cases h
      | some r' =>
        rw [hpl] at h
        have hr' := ih m used r' hpl
        subst hr'
        cases h
        rfl
    · rw [residualPayLoop, if_neg hu, residualInner_eq_none] at h
      cases h

theorem residualPass_some (fuel : Nat) (maps : List BillPaymentMap) :
    ∀ (ps : List Payment) (used : List Int) r,
    residualPass fuel maps ps used = some r → r = (maps, ps, used) := by
  induction maps with
  | nil => intro ps used r h; simpa [residualPass] using h.symm
  | cons m ms ih =>
    intro ps used r h
    by_cases hm : 0 < m.bill.amount
    · rw [residualPass, if_pos hm] at h
      cases hpl : residualPayLoop fuel ps m used with
      | none => rw [hpl] at h; cases h
      | some r' =>
        rw [hpl] at h
        have hr' := residualPayLoop_some fuel ps m used r' hpl
        subst hr'
        have h2 : (match residualPass fuel ms ps used with
            | none => none
            | some r => some (m :: r.1, r.2.1, r.2.2)) = some r := h
        cases hps : residualPass fuel ms ps used with
        | none => rw [hps] at h2; cases h2
        | some r'' =>
          rw [hps] at h2
          have := ih ps used r'' hps
          subst this
          cases h2
          rfl
    · rw [residualPass, if_neg hm] at h
      cases hps : residualPass fuel ms ps used with
      | none => rw [hps] at h; cases h
      | some r' =>
        rw [hps] at h
        have := ih ps used r' hps
        subst this
        cases h
        rfl

theorem seedMaps_inv (bills : List Billing) : ∀ m ∈ seedMaps bills, MapInv m := by
  intro m hm
  simp [seedMaps] at hm
  obtain ⟨b, _, rfl⟩ := hm
  simp [MapInv, mapConsumed, paySum, adjSum, ratSum]

theorem seedMaps_bill_amounts (bills : List Billing) :
    (seedMaps bills).map BillPaymentMap.bill_amount = bills.map Billing.amount := by
  simp [seedMaps]

theorem ratSum_map_add {α : Type} (l : List α) (f g : α → Rat) :
    ratSum (l.map f) + ratSum (l.map g) = ratSum (l.map fun x => f x + g x) := by
  induction l with
  | nil => simp [ratSum]
  | cons x xs ih => simp [ratSum] at ih ⊢; rw [← ih]; ring

theorem ratSum_map_of_inv :
    ∀ l : List BillPaymentMap, (∀ m ∈ l, MapInv m) →
    ratSum (l.map fun m => m.bill.amount + mapConsumed m)
      = ratSum (l.map BillPaymentMap.bill_amount) := by
  intro l
  induction l with
  | nil => intro _; rfl
  | cons m ms ih =>
    intro h
    have h1 : m.bill.amount + mapConsumed m = m.bill_amount :=
      h m (List.mem_cons_self _ _)
    have h2 := ih (fun x hx => h x (List.mem_cons_of_mem _ hx))
    simp only [ratSum, List.map_cons, List.foldr_cons] at h2 ⊢
    rw [h1, h2]

/-- C1: conservation law.  Whenever `bill_payment_map_for_xact` completes
(returns `some maps`), the sum of the remaining bill amounts in the returned
maps plus the sum of all consumed payment and adjustment amounts recorded
across the maps equals the sum of the original bill amounts. -/
theorem bill_payment_map_for_xact_conserves (fuel : Nat) (bills : List Billing)
    (payments : List Payment) (maps : List BillPaymentMap)
    (h : bill_payment_map_for_xact fuel bills payments = some maps) :
    ratSum (maps.map fun m => m.bill.amount) + ratSum (maps.map mapConsumed)
      = ratSum (bills.map Billing.amount) := by
  rw [bill_payment_map_for_xact] at h
  by_cases hb : bills.isEmpty
  · rw [if_pos hb] at h
    cases h
    rw [List.isEmpty_iff] at hb
    subst hb
    simp [ratSum]
  · rw [if_neg hb] at h
    have key : ∀ maps' : List BillPaymentMap, (∀ m ∈ maps', MapInv m) →
        maps'.map BillPaymentMap.bill_amount = bills.map Billing.amount →
        ratSum (maps'.map fun m => m.bill.amount) + ratSum (maps'.map mapConsumed)
          = ratSum (bills.map Billing.amount) := by
      intro maps' hinv hba
      rw [ratSum_map_add, ratSum_map_of_inv maps' hinv, hba]
    by_cases hp : payments.isEmpty
    · rw [if_pos hp] at h
      cases h
      exact key _ (seedMaps_inv bills) (seedMaps_bill_amounts bills)
    · rw [if_neg hp] at h
      simp only [adjustmentPass_nil_used] at h
      split at h
      · cases h
      · next r hres =>
        cases h
        have hr := residualPass_some _ _ _ _ _ hres
        subst hr
        refine key _ ?_ ?_
        · exact exactPass_inv _ _ _ (seedMaps_inv bills)
        · rw [exactPass_bill_amounts, seedMaps_bill_amounts]

/-- Concrete input for the conservation witness: the spec section 8 exact-match
scenario (bills of 5 and 3, payments of 5 and 3). -/
def c1Bills : List Billing := [⟨1, 5⟩, ⟨2, 3⟩]

/-- Payments for the conservation witness. -/
def c1Payments : List Payment := [⟨1, 5, "cash", none⟩, ⟨2, 3, "cash", none⟩]

/-- The maps the allocator returns on the witness input. -/
def c1Maps : List BillPaymentMap :=
  [{ bill := ⟨1, 0⟩, adjustments := [], payments := [⟨1, 5, "cash", none⟩]
     bill_amount := 5, adjustment_amount := 0 },
   { bill := ⟨2, 0⟩, adjustments := [], payments := [⟨2, 3, "cash", none⟩]
     bill_amount := 3, adjustment_amount := 0 }]

/-- Witness for C1: on the exact-match scenario the allocator completes and
the conservation law holds. -/
theorem bill_payment_map_for_xact_conserves_witness :
    bill_payment_map_for_xact 1 c1Bills c1Payments = some c1Maps ∧
    ratSum (c1Maps.map fun m => m.bill.amount) + ratSum (c1Maps.map mapConsumed)
      = ratSum (c1Bills.map Billing.amount) :=
  ⟨by decide,
    bill_payment_map_for_xact_conserves 1 c1Bills c1Payments c1Maps (by decide)⟩

/-- A bill of 5 with a cash payment of 3: the residual pass is entered. -/
def c2Bill : Billing := ⟨1, 5⟩

/-- The cash payment for the C2 failing input. -/
def c2Payment : Payment := ⟨1, 3, "cash", none⟩

/-- C2: the residual pass does not terminate.  Its innermost `loop`
(billing.rs lines 474-490) contains no exit, so on any transaction with a
bill still carrying a positive amount and at least one unused payment the
allocator never returns, whatever iteration bound is allowed: it re-applies
a payment it has already marked used instead of moving on, and then spins
forever once the bill amount reaches 0. -/
theorem residual_pass_diverges (fuel : Nat) :
    bill_payment_map_for_xact fuel [c2Bill] [c2Payment] = none := by
  rw [bill_payment_map_for_xact]
  simp only [adjustmentPass_nil_used]
  simp [c2Bill, c2Payment, seedMaps, sortPaymentsDesc, insertPaymentDesc, exactPass,
    exactApply, residualPass, residualPayLoop, residualInner_eq_none]

/-- The single bill of amount 10 from the spec's adjustment-split scenario. -/
def c3Bill : Billing := ⟨1, 10⟩

/-- The account adjustment of amount 12 targeting bill 1. -/
def c3Adjustment : AcctAdjustment := ⟨7, 1, 12⟩

/-- The adjustment-type payment carrying `c3Adjustment`. -/
def c3Payment : Payment := ⟨1, 12, "account_adjustment", some c3Adjustment⟩

/-- C3: the adjustment-split scenario does not happen.  The candidate filter
of the adjustment pass (billing.rs line 390) keeps the adjustments whose id
is already in `used_adjustments` — the negation is missing — so on the
one-bill/one-adjustment scenario the pass consumes nothing and leaves the
maps untouched, and the allocator then diverges in the residual pass instead
of splitting the adjustment. -/
theorem adjustment_split_unreachable :
    adjustmentPass (seedMaps [c3Bill]) [c3Payment] []
        = (seedMaps [c3Bill], [c3Payment], []) ∧
    ∀ fuel : Nat, bill_payment_map_for_xact fuel [c3Bill] [c3Payment] = none := by
  constructor
  · exact adjustmentPass_nil_used _ _
  · intro fuel
    rw [bill_payment_map_for_xact]
    simp only [adjustmentPass_nil_used]
    simp [c3Bill, c3Payment, seedMaps, sortPaymentsDesc, insertPaymentDesc, exactPass,
      exactApply, residualPass, residualPayLoop, residualInner_eq_none]

/-! ## Transaction open/close invariant (`billing.rs`, `check_open_xact`) -/

/-- The state `check_open_xact` reads for one transaction: the transaction
record (`xact_finish`, modelled as the epoch second it was set, `none` =
open), its balance summary (`balance_owed`), and the linked circulation if
any (`some b` with `b` true when its `stop_fines` marker is a string,
`none` when no circulation row exists). -/
structure XactCtx where
  xactFinish : Option Int
  balanceOwed : Rat
  circ : Option Bool
deriving Repr, DecidableEq

/-- The `no_circ_or_complete` test (billing.rs lines 85-88). -/
def noCircOrComplete (c : XactCtx) : Bool :=
  match c.circ with
  | some stopFinesSet => stopFinesSet
  | none => true

/-- Model of `check_open_xact` (billing.rs lines 73-113): close an open zero-balance
transaction with no open circulation, re-open a closed transaction with a
non-zero balance, otherwise change nothing.  `now` is the closing timestamp
written into `xact_finish`. -/
def check_open_xact (c : XactCtx) (now : Int) : XactCtx :=
  if c.balanceOwed = 0 then
    if c.xactFinish = none ∧ noCircOrComplete c = true then
      { c with xactFinish := some now }
    else c
  else if ¬c.xactFinish = none then
    if ¬c.balanceOwed = 0 ∧ ¬c.xactFinish = none then
      { c with xactFinish := none }
    else c
  else c

/-- C7: `check_open_xact` is idempotent.  With no intervening mutation of the
transaction, its balance summary or its linked circulation, a second run
(at any later time `later`) performs no state change. -/
theorem noCircOrComplete_update (c : XactCtx) (x : Option Int) :
    noCircOrComplete { c with xactFinish := x } = noCircOrComplete c := rfl

theorem check_open_xact_idempotent (c : XactCtx) (now later : Int) :
    check_open_xact (check_open_xact c now) later = check_open_xact c now := by
  by_cases hz : c.balanceOwed = 0
  · by_cases ho : c.xactFinish = none ∧ noCircOrComplete c = true
    · have h1 : check_open_xact c now = { c with xactFinish := some now } := by
        simp [check_open_xact, hz, ho]
      rw [h1]
      simp [check_open_xact, hz, noCircOrComplete_update]
    · have h1 : check_open_xact c now = c := by
        simp [check_open_xact, hz, ho]
      rw [h1]
      simp [check_open_xact, hz, ho]
  · by_cases ho : c.xactFinish = none
    · have h1 : check_open_xact c now = c := by
        simp [check_open_xact, hz, ho]
      rw [h1]
      simp [check_open_xact, hz, ho]
    · have h1 : check_open_xact c now = { c with xactFinish := none } := by
        simp [check_open_xact, hz, ho]
      rw [h1]
      simp [check_open_xact, hz]

/-! ## Grace-period extender (`billing.rs`, `extend_grace_period`) -/

/-- One day of seconds (`DAY_OF_SECONDS`). -/
def DAY_OF_SECONDS : Int := 86400

/-- An `actor.org_unit.hours_of_operation` row: the `day_N_open` and
`day_N_close` time-of-day strings, indexed by weekday number. -/
structure OrgHours where
  openTimes : Nat → String
  closeTimes : Nat → String

/-- The collaborators `extend_grace_period` consults, as total oracles:
the three boolean settings (`json_bool` of the setting value, so an absent
setting reads as `false`), the hours-of-operation row fetched when the
caller supplies none, and the closed-date search, giving for a query
timestamp the `close_end` epochs of the `aoucd` rows whose range covers it
(in result order). -/
structure GraceEnv where
  graceExtend : Bool
  extendIntoClosed : Bool
  extendAll : Bool
  orgHours : Option OrgHours
  closedEnds : Int → List Int

/-- Zero-based weekday (`num_days_from_sunday`) of an epoch second for a
zero-offset locale: 1970-01-01 was a Thursday (= 4). -/
def weekdayOf (t : Int) : Nat := ((t.ediv 86400 + 4).emod 7).toNat

/-- The fully-closed weekday set (billing.rs lines 727-738).  The source
iterates `for day in 0..6`, i.e. days 0 through 5 only. -/
def closedWeekdays (h : OrgHours) : List Nat :=
  (List.range 6).filter fun d => h.openTimes d = "00:00:00" ∧ h.closeTimes d = "00:00:00"

/-- The closed-date-range walk inside one scan step (billing.rs lines
801-810): each matching range whose `close_end` is at or after the scan
position adds one day and advances the scan position. -/
def graceScanRanges : List Int → Int → Int → Int × Int
  | [], g, d => (g, d)
  | e :: es, g, d =>
    if d ≤ e then graceScanRanges es (g + DAY_OF_SECONDS) (d + DAY_OF_SECONDS)
    else graceScanRanges es g d

/-- The day-by-day scan (billing.rs lines 769-819), capped at 366 iterations
(the `counter` is modelled as remaining fuel).  A fully-closed weekday
extends the grace period by a day; otherwise matching closed-date ranges
extend it; otherwise the position advances and the loop stops once it
passes the original due date plus the accumulated grace period. -/
def graceScan (env : GraceEnv) (closeDays : List Nat) (origDue : Int) :
    Nat → Int → Int → Int
  | 0, g, _ => g
  | n + 1, g, d =>
    if weekdayOf d ∈ closeDays then
      graceScan env closeDays origDue n (g + DAY_OF_SECONDS) (d + DAY_OF_SECONDS)
    else
      let ends := env.closedEnds d
      if ends.isEmpty then
        let d2 := d + DAY_OF_SECONDS
        if origDue + g < d2 then g
        else graceScan env closeDays origDue n g d2
      else
        let r := graceScanRanges ends g d
        graceScan env closeDays origDue n r.1 r.2

/-- Model of `extend_grace_period` (billing.rs lines 684-827).  `gracePeriod` is the
input grace period in seconds, `dueDate` the due date in epoch seconds,
`orgHoursArg` the optionally supplied hours of operation. -/
def extend_grace_period (env : GraceEnv) (gracePeriod dueDate : Int)
    (orgHoursArg : Option OrgHours) : Int :=
  if gracePeriod < DAY_OF_SECONDS then gracePeriod
  else if env.graceExtend = false then gracePeriod
  else
    match (match orgHoursArg with | some h => some h | none => env.orgHours) with
    | none => gracePeriod
    | some hours =>
      let closeDays := closedWeekdays hours
      if closeDays.length = 7 then gracePeriod
      else
        let origDue := dueDate
        let d1 := if env.extendIntoClosed then dueDate + DAY_OF_SECONDS else dueDate
        let d2 := if env.extendAll then d1 + DAY_OF_SECONDS else d1 + gracePeriod
        let newGrace := graceScan env closeDays origDue 366 gracePeriod d2
        if gracePeriod < newGrace then newGrace else gracePeriod

/-- C6: `extend_grace_period` never returns a value smaller than the input
grace period, returns the input unchanged when `circ.grace.extend` reads
false (or absent), and returns the input unchanged when the grace period is
under one day. -/
theorem extend_grace_period_monotone (env : GraceEnv) (g d : Int)
    (ha : Option OrgHours) :
    g ≤ extend_grace_period env g d ha ∧
    (env.graceExtend = false → extend_grace_period env g d ha = g) ∧
    (g < 86400 → extend_grace_period env g d ha = g) := by
  refine ⟨?_, ?_, ?_⟩
  · rw [extend_grace_period.eq_def]
    try dsimp only
    repeat' split
    all_goals omega
  · intro hfalse
    rw [extend_grace_period.eq_def]
    split
    · rfl
    · simp [hfalse]
  · intro hsmall
    rw [extend_grace_period.eq_def, if_pos (show g < DAY_OF_SECONDS from hsmall)]

/-- A concrete environment for the C6 witness: extension disabled. -/
def c6Env : GraceEnv :=
  { graceExtend := false, extendIntoClosed := false, extendAll := false
    orgHours := none, closedEnds := fun _ => [] }

/-- Witness for C6 at concrete inputs: a two-day grace period is not
shrunk, and it is returned unchanged both when extension is disabled and
when the period is under one day. -/
theorem extend_grace_period_monotone_witness :
    172800 ≤ extend_grace_period c6Env 172800 0 none ∧
    extend_grace_period c6Env 172800 0 none = 172800 ∧
    extend_grace_period c6Env 3600 0 none = 3600 :=
  ⟨(extend_grace_period_monotone c6Env 172800 0 none).1,
   (extend_grace_period_monotone c6Env 172800 0 none).2.1 rfl,
   (extend_grace_period_monotone c6Env 3600 0 none).2.2 (by decide)⟩

/-- Hours of operation marking all seven weekdays fully closed. -/
def allClosedHours : OrgHours :=
  { openTimes := fun _ => "00:00:00", closeTimes := fun _ => "00:00:00" }

/-- A concrete environment for C4: extension enabled, no ad-hoc closed
dates. -/
def c4Env : GraceEnv :=
  { graceExtend := true, extendIntoClosed := false, extendAll := false
    orgHours := none, closedEnds := fun _ => [] }

/-- C4: with every one of the seven weekdays fully closed and extension
enabled, the one-day grace period of a circulation due at epoch 0 is
nevertheless extended (to two days).  The weekday loop `for day in 0..6`
(billing.rs line 729) checks only days 0 through 5, so `close_count` can
never reach 7 and the never-open guard is unreachable; the scan then grows
the grace period on the closed weekdays it does know about. -/
theorem extend_grace_period_all_closed_extends :
    ((List.range 7).all fun d =>
      allClosedHours.openTimes d = "00:00:00" ∧
        allClosedHours.closeTimes d = "00:00:00") = true ∧
    extend_grace_period c4Env 86400 0 (some allClosedHours) = 172800 := by
  constructor
  · decide
  · decide

/-! ## Fine generator (`billing.rs`, `generate_fines_for_xact`) -/

/-- An adjustment fleshed onto an overdue billing. -/
structure FineBillAdj where
  amount : Rat
  voided : Bool
deriving Repr, DecidableEq

/-- An overdue-type billing row with its fleshed adjustments.  `billingTs`
is the billing timestamp in epoch seconds (the source compares the ISO
strings, whose lexicographic order matches chronological order for a fixed
format and offset). -/
structure FineBill where
  billingTs : Int
  amount : Rat
  voided : Bool
  adjustments : List FineBillAdj
deriving Repr, DecidableEq

/-- The collaborators `generate_fines_for_xact` consults: the current time,
the overdue-billing search result (newest first, per the `billing_ts DESC`
ordering), the grace-extension environment, and the three settings read
before the (absent) generation loop. -/
structure FineEnv where
  now : Int
  fines : List FineBill
  graceEnv : GraceEnv
  chargeWhenClosed : Bool
  truncateToMaxFine : Bool
  libTimezone : Option String

/-- Where `generate_fines_for_xact` stops.  The source contains no billing
creation: after computing the pending-fine quantities and reading the three
policy settings it returns (billing.rs line 681), so `reachedGeneration`
carries the computed quantities and is the furthest the function gets. -/
inductive FineOutcome where
  | skippedZeroPolicy
  | futureFineDate
  | inGracePeriod
  | noPendingFines
  | reachedGeneration (pendingFineCount : Int) (recurringFineCents maxFineCents : Rat)
      (currentFineTotalCents : Rat) (skipClosedCheck truncateToMaxFine : Bool)
      (timezone : String)
deriving Repr, DecidableEq

/-- The running `current_fine_total` in cents (billing.rs lines 594-604): non-voided
fine amounts minus non-voided adjustment amounts, each scaled by 100. -/
def currentFineTotal (fines : List FineBill) : Rat :=
  fines.foldl
    (fun acc f =>
      let acc1 := if f.voided = false then acc + f.amount * 100 else acc
      f.adjustments.foldl
        (fun a adj => if adj.voided = false then a - adj.amount * 100 else a) acc1)
    0

/-- Model of `generate_fines_for_xact` (billing.rs lines 555-682).  `dueDate` is the
due date in epoch seconds; `fineInterval` and `gracePeriod` are the raw
interval strings handed to `interval_to_seconds` (the grace period
defaulting to `"0s"`). -/
def generate_fines_for_xact (env : FineEnv) (dueDate : Int) (recurringFine : Rat)
    (fineInterval : String) (maxFine : Rat) (gracePeriod : Option String) :
    FineOutcome :=
  let fineIntervalSecs := interval_to_seconds fineInterval
  let gracePeriodSecs := interval_to_seconds (gracePeriod.getD "0s")
  if fineIntervalSecs = 0 ∨ recurringFine * 100 = 0 ∨ maxFine * 100 = 0 then
    FineOutcome.skippedZeroPolicy
  else
    let total := currentFineTotal env.fines
    let finesAfterDue := env.fines.filter fun f => dueDate < f.billingTs
    let gpAndLast : Int × Int :=
      match finesAfterDue.head? with
      | some f => (gracePeriodSecs, f.billingTs)
      | none =>
        (extend_grace_period env.graceEnv gracePeriodSecs dueDate none, dueDate)
    let gp := gpAndLast.1
    let lastFineTs := gpAndLast.2
    if env.now < lastFineTs then FineOutcome.futureFineDate
    else if lastFineTs = dueDate ∧ 0 < gp ∧ env.now < dueDate - gp then
      FineOutcome.inGracePeriod
    else
      let range := env.now - lastFineTs
      let pendingFineCount := Int.ceil ((range : Rat) / (fineIntervalSecs : Rat))
      if pendingFineCount = 0 then FineOutcome.noPendingFines
      else
        FineOutcome.reachedGeneration pendingFineCount (recurringFine * 100)
          (maxFine * 100) total env.chargeWhenClosed env.truncateToMaxFine
          (env.libTimezone.getD "local")

/-- A stop before the generation phase: every outcome except
`reachedGeneration` returns without creating any billing (and even the
generation phase of this source creates none, since the creation loop is
absent). -/
def StopsWithoutFines : FineOutcome → Prop
  | FineOutcome.reachedGeneration .. => False
  | _ => True

/-- C5: with no overdue fine billed after the due date (the due date is the
baseline), a positive (possibly extended) grace period, and the current time
inside the window from `due_date - grace_period` to `due_date`, the fine
generator stops and generates no fines. -/
theorem generate_fines_stops_in_grace (env : FineEnv) (dueDate : Int)
    (recurringFine : Rat) (fineInterval : String) (maxFine : Rat)
    (gracePeriod : Option String)
    (hnofines : env.fines.filter (fun f => dueDate < f.billingTs) = [])
    (hgrace : 0 < extend_grace_period env.graceEnv
        (interval_to_seconds (gracePeriod.getD "0s")) dueDate none)
    (hlo : dueDate - extend_grace_period env.graceEnv
        (interval_to_seconds (gracePeriod.getD "0s")) dueDate none ≤ env.now)
    (hhi : env.now ≤ dueDate) :
    StopsWithoutFines
      (generate_fines_for_xact env dueDate recurringFine fineInterval maxFine
        gracePeriod) := by
  rw [generate_fines_for_xact]
  split
  · exact trivial
  · simp only [hnofines, List.head?_nil]
    split
    · exact trivial
    · split
      · exact trivial
      · next hnow hgr =>
        have h0 : env.now - dueDate = 0 := by omega
        simp only [h0, Int.cast_zero, zero_div, Int.ceil_zero]
        split
        · exact trivial
        · next hzero => exact absurd trivial hzero

/-- Grace environment for the C5 witness: extension disabled, so the
two-day grace period passes through unchanged. -/
def c5GraceEnv : GraceEnv :=
  { graceExtend := false, extendIntoClosed := false, extendAll := false
    orgHours := none, closedEnds := fun _ => [] }

/-- Concrete fine environment for the C5 witness: no fines yet, and the
current time 100000 sits inside the grace window of a due date of 200000. -/
def c5Env : FineEnv :=
  { now := 100000, fines := [], graceEnv := c5GraceEnv, chargeWhenClosed := false
    truncateToMaxFine := false, libTimezone := none }

/-- Witness for C5 at concrete inputs. -/
theorem generate_fines_stops_in_grace_witness :
    (c5Env.fines.filter (fun f => (200000 : Int) < f.billingTs) = []) ∧
    0 < extend_grace_period c5Env.graceEnv
        (interval_to_seconds ((some "2 days").getD "0s")) 200000 none ∧
    (200000 : Int) - extend_grace_period c5Env.graceEnv
        (interval_to_seconds ((some "2 days").getD "0s")) 200000 none ≤ c5Env.now ∧
    c5Env.now ≤ 200000 ∧
    StopsWithoutFines
      (generate_fines_for_xact c5Env 200000 1 "1 h" 25 (some "2 days")) :=
  ⟨rfl, by decide, by decide, by decide,
    generate_fines_stops_in_grace c5Env 200000 1 "1 h" 25 (some "2 days")
      rfl (by decide) (by decide) (by decide)⟩

/-- C8 (amended): the fine generator skips entirely exactly when the fine
interval parses to 0 seconds or the recurring fine or max fine is exactly
zero — the source guard tests `recurring_fine * 100.0 == 0.0`, which is an
exact-zero test, not a rounding to cent precision. -/
theorem generate_fines_zero_guard (env : FineEnv) (dueDate : Int)
    (recurringFine : Rat) (fineInterval : String) (maxFine : Rat)
    (gracePeriod : Option String)
    (h : interval_to_seconds fineInterval = 0 ∨ recurringFine = 0 ∨ maxFine = 0) :
    generate_fines_for_xact env dueDate recurringFine fineInterval maxFine
      gracePeriod = FineOutcome.skippedZeroPolicy := by
  have h' : interval_to_seconds fineInterval = 0 ∨ recurringFine * 100 = 0 ∨
      maxFine * 100 = 0 := by
    rcases h with h | h | h
    · exact Or.inl h
    · exact Or.inr (Or.inl (by rw [h]; ring))
    · exact Or.inr (Or.inr (by rw [h]; ring))
  simp only [generate_fines_for_xact]
  rw [if_pos h']

/-- Grace environment for the C8 input. -/
def c8GraceEnv : GraceEnv :=
  { graceExtend := false, extendIntoClosed := false, extendAll := false
    orgHours := none, closedEnds := fun _ => [] }

/-- Concrete fine environment for C8: no fines yet, now one day past a due
date of 0. -/
def c8Env : FineEnv :=
  { now := 86400, fines := [], graceEnv := c8GraceEnv, chargeWhenClosed := false
    truncateToMaxFine := false, libTimezone := none }

/-- Counterexample for C8 as stated: a recurring fine of 1/250 (0.004)
rounds to zero at cent precision, yet the generator does not skip — it
passes the guard and reaches the generation phase. -/
theorem generate_fines_zero_guard_counterexample :
    round ((1 : Rat) / 250 * 100) = 0 ∧
    generate_fines_for_xact c8Env 0 ((1 : Rat) / 250) "1 days" 10 none
      ≠ FineOutcome.skippedZeroPolicy := by
  constructor
  · norm_num [round_eq]
  · have hfi : interval_to_seconds "1 days" = 86400 := rfl
    have hcond : ¬(interval_to_seconds "1 days" = 0 ∨ (1 : Rat) / 250 * 100 = 0 ∨
        (10 : Rat) * 100 = 0) := by
      rw [hfi]; norm_num
    simp only [generate_fines_for_xact]
    rw [if_neg hcond]
    repeat' split
    all_goals simp

/-- Witness for the amended C8: a fine interval of 0 seconds makes the
generator skip entirely. -/
theorem generate_fines_zero_guard_witness :
    (interval_to_seconds "0 s" = 0 ∨ (5 : Rat) = 0 ∨ (10 : Rat) = 0) ∧
    generate_fines_for_xact c8Env 0 5 "0 s" 10 none
      = FineOutcome.skippedZeroPolicy :=
  ⟨Or.inl (by decide),
    generate_fines_zero_guard c8Env 0 5 "0 s" 10 none (Or.inl (by decide))⟩

/-! ## Transaction ledger (`billing.rs`, `void_bills` / `adjust_bills_to_zero`) -/

/-- A `money.billing` row as the ledger operations see it. -/
structure MBill where
  id : Int
  xact : Int
  amount : Rat
  voided : Bool
  note : Option String
deriving Repr, DecidableEq

/-- The observable side effects of the ledger operations: record updates,
adjustment creations, open/closed-invariant checks and penalty
recomputations, in order. -/
inductive LedgerEffect where
  | updatedBill (billId : Int)
  | createdAdjustment (billId : Int) (amount : Rat)
  | checkedOpenXact (xactId : Int)
  | recomputedPenalties (usr org : Int)
deriving Repr, DecidableEq

/-- The persistence oracles the ledger operations consult: billing rows by
id (the `search("mb", {"id": ids})` result is the ids' rows in order),
transaction user by transaction id (`retrieve("mbt", ..)`), billing
location by transaction id (`retrieve("mbtslv", ..)`), and the allocator's
inputs for a transaction. -/
structure LedgerEnv where
  billsById : Int → Option MBill
  xactUsr : Int → Option Int
  orgOf : Int → Option Int
  allocBills : Int → List Billing
  allocPayments : Int → List Payment

/-- Insert a (user, org) pair into the penalty set once
(the `HashSet` of billing.rs line 25, modelled in insertion order). -/
def insertPair (p : Int × Int) (l : List (Int × Int)) : List (Int × Int) :=
  if p ∈ l then l else l ++ [p]

/-- The per-bill loop of `void_bills` (billing.rs lines 31-63): skip
already-voided bills, fail when a bill's transaction cannot be loaded,
otherwise mark voided, persist and re-check the invariant. -/
def voidBillsLoop (env : LedgerEnv) :
    List MBill → List (Int × Int) → List LedgerEffect →
    Except String (List (Int × Int) × List LedgerEffect)
  | [], pairs, effects => Except.ok (pairs, effects)
  | bill :: rest, pairs, effects =>
    if bill.voided = true then voidBillsLoop env rest pairs effects
    else
      match env.xactUsr bill.xact with
      | none => Except.error "event"
      | some usr =>
        match env.orgOf bill.xact with
        | none => Except.error "No Such Transaction"
        | some org =>
          voidBillsLoop env rest (insertPair (usr, org) pairs)
            (effects ++ [LedgerEffect.updatedBill bill.id,
              LedgerEffect.checkedOpenXact bill.xact])

/-- Model of `void_bills` (billing.rs lines 17-70): fails with NotFound when no bill
matches any requested id, otherwise voids the not-yet-voided bills and
recomputes penalties once per distinct (user, org) pair. -/
def void_bills (env : LedgerEnv) (billing_ids : List Int) :
    Except String (List LedgerEffect) :=
  let bills := billing_ids.filterMap env.billsById
  if bills.isEmpty then Except.error "No such billings"
  else
    match voidBillsLoop env bills [] [] with
    | Except.error e => Except.error e
    | Except.ok (pairs, effects) =>
      Except.ok (effects ++ pairs.map fun p => LedgerEffect.recomputedPenalties p.1 p.2)

/-- The per-bill loop of `adjust_bills_to_zero` (billing.rs lines 246-291):
for each target bill, adjust by the bill's non-adjusted balance, skipping
bills already fully adjusted and capping at the transaction total. -/
def adjustBillsLoop (xactTotal : Int → Rat) :
    List MBill → List BillPaymentMap → Rat → List LedgerEffect →
    List BillPaymentMap × List LedgerEffect
  | [], maps, _, effects => (maps, effects)
  | bill :: rest, maps, total, effects =>
    match maps.find? fun m => m.bill.id = bill.id with
    | none => adjustBillsLoop xactTotal rest maps total effects
    | some m =>
      let amountToAdjust := fpdiff m.bill_amount m.adjustment_amount
      if amountToAdjust ≤ 0 then adjustBillsLoop xactTotal rest maps total effects
      else
        let amountToAdjust := if total < amountToAdjust then total else amountToAdjust
        let maps2 := maps.map fun m2 =>
          if m2.bill.id = bill.id then
            { m2 with adjustment_amount := m2.adjustment_amount + amountToAdjust }
          else m2
        adjustBillsLoop xactTotal rest maps2 total
          (effects ++ [LedgerEffect.createdAdjustment bill.id amountToAdjust])

/-- Model of `adjust_bills_to_zero` (billing.rs lines 210-299): succeeds doing
nothing when no bill matches; otherwise adjusts each target bill's
non-adjusted balance to zero, re-checks the open/closed invariant and
recomputes penalties.  The result is `none` when the embedded allocator
diverges (its residual pass), and carries the effect trace otherwise. -/
def adjust_bills_to_zero (env : LedgerEnv) (fuel : Nat) (bill_ids : List Int) :
    Option (Except String (List LedgerEffect)) :=
  let bills := bill_ids.filterMap env.billsById
  if h : bills.isEmpty then some (Except.ok [])
  else
    let xactId := (bills.head (by simpa [List.isEmpty_iff] using h)).xact
    match env.xactUsr xactId with
    | none => some (Except.error "Billing has no transaction?")
    | some usr =>
      match bill_payment_map_for_xact fuel (env.allocBills xactId)
          (env.allocPayments xactId) with
      | none => none
      | some maps =>
        match (maps.map fun m => m.bill.amount).foldl (fun a b => a + b) 0,
            maps.isEmpty with
        | _, true => some (Except.ok [])
        | xactTotal, false =>
          let r := adjustBillsLoop (fun _ => xactTotal) bills maps xactTotal []
          match env.orgOf xactId with
          | none => some (Except.error "No Such Transaction")
          | some org =>
            some (Except.ok (r.2 ++ [LedgerEffect.checkedOpenXact xactId,
              LedgerEffect.recomputedPenalties usr org]))

/-- C10: with bill ids matching no billing records, `adjust_bills_to_zero`
returns success with no side effects at all, while `void_bills` fails with
its NotFound error. -/
theorem adjust_bills_to_zero_empty_ok (env : LedgerEnv) (fuel : Nat)
    (bill_ids : List Int)
    (h : bill_ids.filterMap env.billsById = []) :
    adjust_bills_to_zero env fuel bill_ids = some (Except.ok []) ∧
    void_bills env bill_ids = Except.error "No such billings" := by
  constructor
  · rw [adjust_bills_to_zero]
    rw [dif_pos (by simp [h])]
  · rw [void_bills]
    simp [h]

/-- Oracle with no billing rows at all, for the C10 witness. -/
def c10Env : LedgerEnv :=
  { billsById := fun _ => none, xactUsr := fun _ => none, orgOf := fun _ => none
    allocBills := fun _ => [], allocPayments := fun _ => [] }

/-- Witness for C10 at concrete inputs. -/
theorem adjust_bills_to_zero_empty_ok_witness :
    ([1, 2].filterMap c10Env.billsById = []) ∧
    adjust_bills_to_zero c10Env 1 [1, 2] = some (Except.ok []) ∧
    void_bills c10Env [1, 2] = Except.error "No such billings" :=
  ⟨rfl, (adjust_bills_to_zero_empty_ok c10Env 1 [1, 2] rfl).1,
    (adjust_bills_to_zero_empty_ok c10Env 1 [1, 2] rfl).2⟩
